import Mathlib

/-!
# Verification of the Lakechain middleware event-chaining conventions

Shallow embedding of the Python middleware processors of the
`project-lakechain` repository: the JSON event envelope, the recursive
metadata `merge`, `publish_event`, the per-processor `process_document`
functions, the SQS consume loop, the text chunker and the keyword
post-processing.  Python dictionaries are modelled as association lists
(`List (String × JVal)`) preserving insertion order, exceptions as
`Option`/`none`, and calls into AWS SDKs or third-party ML libraries as
oracle parameters.
-/

namespace Lakechain

/-- Model of Python/JSON values as they appear in pipeline events. -/
inductive JVal where
  | null : JVal
  | bool : Bool → JVal
  | num  : Int → JVal
  | str  : String → JVal
  | arr  : List JVal → JVal
  | obj  : List (String × JVal) → JVal

/-- First-match lookup in an association list (Python `d[k]` / `k in d`). -/
def lookupKey {β : Type} : List (String × β) → String → Option β
  | [], _ => none
  | (k', v) :: rest, k => if k' = k then some v else lookupKey rest k

/-- In-place update of an existing key (Python `d[k] = v` when `k in d`):
the key keeps its position in the dict's insertion order. -/
def setKey {β : Type} : List (String × β) → String → β → List (String × β)
  | [], _, _ => []
  | (k', w) :: rest, k, v =>
    if k' = k then (k', v) :: rest else (k', w) :: setKey rest k v

/-- Whether a value is a Python `dict` (`isinstance(v, dict)`). -/
def isObj : JVal → Bool
  | .obj _ => true
  | _ => false

mutual
/-- Model of the recursive dict `merge(dct, merge_dct)` shared by the
whisper-transcriber and hashing-image-processor: iterate over the keys of
`merge_dct` in order, recursing when both sides hold dicts and otherwise
only adding keys absent from `dct`. -/
def mergeObj (d : List (String × JVal)) : List (String × JVal) → List (String × JVal)
  | [] => d
  | (k, v) :: rest => mergeObj (mergeEntry d k v) rest
termination_by m => sizeOf m

/-- One iteration of the `merge` loop for key `k` with incoming value `v`:
`if (k in dct and isinstance(dct[k], dict) and isinstance(merge_dct[k], dict))`
recurse, `else: if k not in dct: dct[k] = merge_dct[k]`. -/
def mergeEntry (d : List (String × JVal)) (k : String) (v : JVal) : List (String × JVal) :=
  match lookupKey d k, v with
  | some (.obj dw), .obj vw => setKey d k (.obj (mergeObj dw vw))
  | some _, _ => d
  | none, _ => d ++ [(k, v)]
termination_by sizeOf v
end

/-- The value the merge is expected to leave at a key that was already
present in `dct` with value `v`, given the (optional) incoming value. -/
def mergedValue (v : JVal) (mv : Option JVal) : JVal :=
  match v, mv with
  | .obj dv, some (.obj mw) => .obj (mergeObj dv mw)
  | _, _ => v

/-- Truthiness of the optional `SNS_TARGET_TOPIC` environment variable
(`if SNS_TARGET_TOPIC:`): set and non-empty. -/
def topicConfigured : Option String → Bool
  | none => false
  | some t => t ≠ ""

/-- Model of `publish_event` (laplacian-image-processor `publish.py`,
duplicated verbatim across the lambda processors): insert the service name
at index 0 of `event['data']['callStack']`, publish the JSON-serialised
event to the target SNS topic when one is configured, and return the
mutated event.  The result carries the mutated event together with the
list of `(topic, message)` pairs handed to `sns_client.publish`; `none`
models an uncaught exception (missing key or wrongly-typed field). -/
def publish_event (serviceName : String) (topic : Option String) :
    JVal → Option (JVal × List (String × JVal))
  | .obj ekvs =>
    match lookupKey ekvs "data" with
    | some (.obj dkvs) =>
      match lookupKey dkvs "callStack" with
      | some (.arr cs) =>
        let e' := JVal.obj (setKey ekvs "data"
          (.obj (setKey dkvs "callStack" (.arr (.str serviceName :: cs)))))
        some (e', if topicConfigured topic then [(topic.getD "", e')] else [])
      | _ => none
    | _ => none
  | _ => none

/-- Subscript access `v[k]` on a Python value: `none` models the
`KeyError`/`TypeError` raised when the key is missing or the value is not
a dict. -/
def jGet (v : JVal) (k : String) : Option JVal :=
  match v with
  | .obj kvs => lookupKey kvs k
  | _ => none

/-- The expression `urlparse(event['data']['document']['url'])` as evaluated by the
whisper-transcriber `on_message` before processing; `urlparse` raises
unless the value is a string. -/
def documentUrl (ev : JVal) : Option String := do
  let d ← jGet ev "data"
  let doc ← jGet d "document"
  let u ← jGet doc "url"
  match u with
  | .str s => some s
  | _ => none

/-- The body of the whisper-transcriber `on_message` inside its `try`:
parse the message body (`parsed`, `none` when `json.loads` raises), read
the document URL, process the event (`process` abstracts `process_event`
with its S3 and Whisper-engine calls) and publish it (`publish` abstracts
`publish_event` plus the SNS call); reaching the end means
`delete_message` is executed. -/
def on_message_try (parsed : Option JVal) (process : JVal → Option JVal)
    (publish : JVal → Option JVal) : Option Unit := do
  let ev ← parsed
  let _ ← documentUrl ev
  let ev2 ← process ev
  let _ ← publish ev2
  pure ()

/-- Model of `on_message`: the whole body runs inside
`try: ... except Exception: traceback.print_exc()`, so the function
always returns normally; the result records whether `delete_message` was
reached (with `false`, the message stays on the queue for redelivery). -/
def on_message (parsed : Option JVal) (process publish : JVal → Option JVal) : Bool :=
  match on_message_try parsed process publish with
  | some _ => true
  | none => false

/-- Model of `sqs_consume_queue` (blip2 `message_provider.py`).  The input
list holds the successive results of `sqs_client.receive_message` (the
poll oracle).  Each message of a non-empty batch is handed to
`message_processor` inside `try/except logging.error` (the `Bool` paired
with each message records whether it succeeded); an empty poll breaks the
loop.  The final `Bool` tells whether the loop returned (`true`) or ran
out of modelled polls while still looping (`false`). -/
def sqs_consume_queue {α : Type} (proc : α → Option Unit) :
    List (List α) → List (α × Bool) × Bool
  | [] => ([], false)
  | batch :: rest =>
    if batch.length > 0 then
      let out := sqs_consume_queue proc rest
      (batch.map (fun m => (m, (proc m).isSome)) ++ out.1, out.2)
    else ([], true)

/-- String extraction, modelling calls that raise on non-string input. -/
def asStr : JVal → Option String
  | .str s => some s
  | _ => none

/-- External actions performed by a lambda processor, in execution order. -/
inductive Step where
  | parseBody : Step
  | s3Fetch : String → Step
  | edgeDetect : Step
  | s3Upload : String → String → Step
  | setDocument : Step
  | snsPublish : String → Step

/-- Configuration and oracles of the canny-edge-detector lambda: the
`PROCESSED_FILES_BUCKET`, the `POWERTOOLS_SERVICE_NAME`, the optional
`SNS_TARGET_TOPIC`, the ETag returned by `put_object` for a given key
(S3 oracle, already stripped of quotes), and `sys.getsizeof` of the
encoded PNG byte array (library oracle). -/
structure CannyEnv where
  targetBucket : String
  serviceName : String
  topic : Option String
  etagOf : String → String
  pngSize : Int

/-- Model of the canny-edge-detector `process_document`: read
`data.document` and `data.chainId`, fetch the image bytes from
`document['url']`, run the OpenCV pipeline (grayscale, blur, Canny,
PNG encode — a single opaque library step), upload the PNG under
`f"{chain_id}/{document['etag']}"`, and replace `data.document` in place
with the descriptor of the uploaded object.  Returns the updated event
and the ordered external actions; `none` models an uncaught exception.
String fields are required where the source interpolates them into keys
and URLs. -/
def canny_process_document (env : CannyEnv) (ev : JVal) :
    Option (JVal × List Step) :=
  match ev with
  | .obj ekvs =>
    match lookupKey ekvs "data" with
    | some (.obj dkvs) =>
      match lookupKey dkvs "document" with
      | some (.obj dockvs) =>
        match lookupKey dkvs "chainId", lookupKey dockvs "etag",
              lookupKey dockvs "url" with
        | some (.str chainId), some (.str etag), some (.str url) =>
          let outputKey := chainId ++ "/" ++ etag
          let newdoc : JVal := .obj [
            ("url", .str ("s3://" ++ env.targetBucket ++ "/" ++ outputKey)),
            ("type", .str "image/png"),
            ("size", .num env.pngSize),
            ("etag", .str (env.etagOf outputKey))]
          some (.obj (setKey ekvs "data" (.obj (setKey dkvs "document" newdoc))),
            [.s3Fetch url, .edgeDetect, .s3Upload env.targetBucket outputKey,
             .setDocument])
        | _, _, _ => none
      | _ => none
    | _ => none
  | _ => none

/-- Model of the canny-edge-detector `record_handler`: parse the record
body as JSON (the body is given already parsed, `parseBody` marking the
step), run `process_document`, then `publish_event`. -/
def canny_record_handler (env : CannyEnv) (body : JVal) :
    Option (JVal × List Step) := do
  let (ev1, steps) ← canny_process_document env body
  let (ev2, published) ← publish_event env.serviceName env.topic ev1
  pure (ev2, Step.parseBody :: steps ++ published.map (fun p => Step.snsPublish p.1))

/-- Configuration and oracles of the image-layer-processor
`filter-processor` lambda: the `PROCESSED_FILES_BUCKET`,
`unquote(urlparse(url).path).lstrip('/')` (urllib oracle), the output of
`array_to_image` for the document's MIME type (`sys.getsizeof` of the
bytes and the output MIME type, library oracles), and the `put_object`
ETag oracle. -/
structure LayerEnv where
  processedBucket : String
  pathOf : String → String
  outSize : Int
  mimeOf : String → String
  etagOf : String → String

/-- Model of the image-layer-processor `process_document`: read
`data.document`, fetch and filter the image (the cv2/pixelate/highlight
calls read the event but never mutate it), upload the result under
`f"{etag}/{filename}"`, and replace the document via
`event |= {'data': event['data'] | {'document': {...}}}` (which, the key
being present, updates it in place). -/
def layer_process_document (env : LayerEnv) (ev : JVal) : Option JVal :=
  match ev with
  | .obj ekvs =>
    match lookupKey ekvs "data" with
    | some (.obj dkvs) =>
      match lookupKey dkvs "document" with
      | some (.obj dockvs) =>
        match lookupKey dockvs "url", lookupKey dockvs "etag",
              lookupKey dockvs "type" with
        | some (.str url), some (.str etag), some (.str ty) =>
          let dest := etag ++ "/" ++ env.pathOf url
          let newdoc : JVal := .obj [
            ("url", .str ("s3://" ++ env.processedBucket ++ "/" ++ dest)),
            ("type", .str (env.mimeOf ty)),
            ("size", .num env.outSize),
            ("etag", .str (env.etagOf dest))]
          some (.obj (setKey ekvs "data" (.obj (setKey dkvs "document" newdoc))))
        | _, _, _ => none
      | _ => none
    | _ => none
  | _ => none

/-- Accessor for `event['data']['document']` of a processed event. -/
def documentOf (ev : JVal) : Option JVal := do
  let d ← jGet ev "data"
  jGet d "document"

/-- The field names of `event['data']['document']`, in insertion order. -/
def docKeys (ev : JVal) : Option (List String) := do
  let doc ← documentOf ev
  match doc with
  | .obj kvs => some (kvs.map Prod.fst)
  | _ => none

/-- Accessor for `event['data']['chainId']`. -/
def chainIdOf (ev : JVal) : Option JVal := do
  let d ← jGet ev "data"
  jGet d "chainId"

/-- Python dict *right-biased* top-level union `d |= m` (PEP 584): keys of
`m` overwrite existing keys of `d` in place and new keys are appended. -/
def dictUnionRight (d m : List (String × JVal)) : List (String × JVal) :=
  m.foldl (fun acc kv =>
    if (lookupKey acc kv.1).isSome then setKey acc kv.1 kv.2
    else acc ++ [kv]) d

/-- Configuration and oracles of the tiling-text-splitter lambda: the
`PROCESSED_FILES_BUCKET`, `POWERTOOLS_SERVICE_NAME`, `SNS_TARGET_TOPIC`,
the `put_object` ETag oracle, `sys.getsizeof(chunk)` and
`hashlib.sha256(chunk).hexdigest()` (library oracles). -/
structure SplitterEnv where
  targetBucket : String
  serviceName : String
  topic : Option String
  etagOf : String → String
  pySize : String → Int
  shaHex : String → String

/-- Model of `get_metadata(chunk, order)` of the tiling-text-splitter. -/
def get_metadata (env : SplitterEnv) (chunk : String) (order : Nat) : JVal :=
  .obj [("properties", .obj [
    ("kind", .str "text"),
    ("attrs", .obj [("chunk", .obj [
      ("id", .str (env.shaHex chunk)),
      ("order", .num order)])])])]

/-- Model of the tiling-text-splitter `on_chunk`: upload the chunk under
`f"{chain_id}/tiling-text-splitter-{document['etag']}-{order}.txt"`,
replace `data.document` with the descriptor of the uploaded chunk, apply
`event['data']['metadata'] |= get_metadata(chunk, order)` and call
`publish_event`.  Returns the mutated event and the `(topic, message)`
pairs published. -/
def on_chunk (env : SplitterEnv) (chunk : String) (order : Nat) (ev : JVal) :
    Option (JVal × List (String × JVal)) :=
  match ev with
  | .obj ekvs =>
    match lookupKey ekvs "data" with
    | some (.obj dkvs) =>
      match lookupKey dkvs "document", lookupKey dkvs "chainId" with
      | some (.obj dockvs), some (.str chainId) =>
        match lookupKey dockvs "etag" with
        | some (.str etag) =>
          let outputKey := chainId ++ "/tiling-text-splitter-" ++ etag ++
            "-" ++ toString order ++ ".txt"
          let newdoc : JVal := .obj [
            ("url", .str ("s3://" ++ env.targetBucket ++ "/" ++ outputKey)),
            ("type", .str "text/plain"),
            ("size", .num (env.pySize chunk)),
            ("etag", .str (env.etagOf outputKey))]
          let dkvs1 := setKey dkvs "document" newdoc
          match lookupKey dkvs1 "metadata" with
          | some (.obj mkvs) =>
            let md := JVal.obj (dictUnionRight mkvs
              [("properties", .obj [
                ("kind", .str "text"),
                ("attrs", .obj [("chunk", .obj [
                  ("id", .str (env.shaHex chunk)),
                  ("order", .num order)])])])])
            publish_event env.serviceName env.topic
              (.obj (setKey ekvs "data" (.obj (setKey dkvs1 "metadata" md))))
          | _ => none
        | _ => none
      | _, _ => none
    | _ => none
  | _ => none

/-- The `for idx, tile in enumerate(chunks)` loop of `document_handler`,
threading the in-place mutations of the shared event object and
collecting every publish. -/
def splitter_loop (env : SplitterEnv) (ev : JVal) :
    List (String × Nat) → Option (JVal × List (String × JVal))
  | [] => some (ev, [])
  | (chunk, idx) :: rest => do
    let r1 ← on_chunk env chunk idx ev
    let r2 ← splitter_loop env r1.1 rest
    pure (r2.1, r1.2 ++ r2.2)

/-- Model of the tiling-text-splitter `document_handler`: load the
document text from `data.document.url` (S3 fetch; the chunks produced by
`TextTilingTokenizer.tokenize` on that text are the `chunks` oracle),
then run `on_chunk` on every chunk in order and return the event. -/
def document_handler (env : SplitterEnv) (chunks : List String) (ev : JVal) :
    Option (JVal × List (String × JVal)) :=
  match ev with
  | .obj ekvs =>
    match lookupKey ekvs "data" with
    | some (.obj dkvs) =>
      match lookupKey dkvs "document" with
      | some (.obj dockvs) =>
        match lookupKey dockvs "url" with
        | some (.str _) =>
          splitter_loop env ev (chunks.enum.map (fun p => (p.2, p.1)))
        | _ => none
      | _ => none
    | _ => none
  | _ => none

/-- The event shape `on_chunk` needs to run without raising: a dict event
whose `data` dict holds a `document` dict with string `url` and `etag`, a
string `chainId`, a dict `metadata` and a list `callStack`. -/
def SplitterShape (ev : JVal) : Prop :=
  ∃ ekvs dkvs dockvs mkvs cs urlS etagS chainIdS,
    ev = JVal.obj ekvs ∧
    lookupKey ekvs "data" = some (.obj dkvs) ∧
    lookupKey dkvs "document" = some (.obj dockvs) ∧
    lookupKey dockvs "url" = some (.str urlS) ∧
    lookupKey dockvs "etag" = some (.str etagS) ∧
    lookupKey dkvs "chainId" = some (.str chainIdS) ∧
    lookupKey dkvs "metadata" = some (.obj mkvs) ∧
    lookupKey dkvs "callStack" = some (.arr cs)

/-- A Python string, modelled by its UTF-8 encoding (one `Nat` per byte):
`len(s.encode('utf-8'))` is `List.length`, `+=` is `List.append`, and
equality of encodings coincides with equality of strings (UTF-8 is
injective and concatenation-homomorphic). -/
abbrev Utf8 := List Nat

/-- The `for idx, sentence in enumerate(sentences)` loop of `chunk_text`
(keybert `chunking.py`), carrying `currentChunk`: when the sentence would
overflow the chunk, the pending chunk is flushed and the sentence starts
a new one, otherwise it is appended; the last iteration always flushes
the pending chunk. -/
def chunkLoop (maxB : Nat) : List Utf8 → Utf8 → List Utf8
  | [], _ => []
  | [s], cur =>
    if s.length + cur.length > maxB then [cur, s] else [cur ++ s]
  | s :: s' :: rest, cur =>
    if s.length + cur.length > maxB then cur :: chunkLoop maxB (s' :: rest) s
    else chunkLoop maxB (s' :: rest) (cur ++ s)

/-- Model of `chunk_text(text, max_byte_length)`: `sent_tokenize(text)` (nltk
library oracle) yields `sentences`; the loop starts from the empty
chunk. -/
def chunk_text (sentences : List Utf8) (maxB : Nat) : List Utf8 :=
  chunkLoop maxB sentences []

/-- The maximum score a keyword obtained across a list of
`(keyword, score)` pairs (`none` when the keyword never occurs). -/
def maxScore : List (String × Int) → String → Option Int
  | [], _ => none
  | (k', v) :: rest, k =>
    if k' = k then
      match maxScore rest k with
      | none => some v
      | some m => some (max v m)
    else maxScore rest k

/-- Combine an optional best-so-far with an optional new best. -/
def mergeMax : Option Int → Option Int → Option Int
  | none, b => b
  | some x, none => some x
  | some x, some y => some (max x y)

/-- One iteration of the `result_dict` loop of `get_keywords`:
`if key not in result_dict or value > result_dict[key]:
result_dict[key] = value` (Python dict assignment keeps the position of
an existing key and appends a new one). -/
def dedupeStep (acc : List (String × Int)) (kv : String × Int) :
    List (String × Int) :=
  match lookupKey acc kv.1 with
  | none => acc ++ [kv]
  | some v0 => if kv.2 > v0 then setKey acc kv.1 kv.2 else acc

/-- The `result_dict` after the whole loop of `get_keywords`. -/
def dedupe_max (pairs : List (String × Int)) : List (String × Int) :=
  pairs.foldl dedupeStep []

/-- Stable insertion for the descending sort by score: an element moves
past every earlier element with a greater-or-equal score.  Folding it
left to right reproduces `sorted(..., key=lambda x: x[1], reverse=True)`
(Python's sort is stable, and `reverse=True` keeps ties in their
original order). -/
def insertDesc (x : String × Int) : List (String × Int) → List (String × Int)
  | [] => [x]
  | y :: ys => if x.2 > y.2 then x :: y :: ys else y :: insertDesc x ys

/-- Model of `sorted(result_dict.items(), key=lambda x: x[1], reverse=True)`. -/
def sortDesc (l : List (String × Int)) : List (String × Int) :=
  l.foldl (fun acc x => insertDesc x acc) []

/-- The `get_keywords` post-processing (keybert `keywords.py`): concatenate
the per-chunk `kw_model.extract_keywords` outputs (`chunkKeywords`, the
KeyBERT library oracle, one list per chunk of the text), collapse
duplicate keywords keeping the highest score, sort by score descending,
truncate to `top_n` and keep the keywords.  Scores are only ever
compared, so the library's floats are modelled by integers. -/
def get_keywords (chunkKeywords : List (List (String × Int))) (top_n : Nat) :
    List String :=
  ((sortDesc (dedupe_max chunkKeywords.flatten)).take top_n).map Prod.fst

/-- Python `.get(k, default)`: the default when the key is absent; an
`AttributeError` (modelled `none`) when the receiver is not a dict. -/
def pyGet (v : JVal) (k : String) (dflt : JVal) : Option JVal :=
  match v with
  | .obj kvs => some ((lookupKey kvs k).getD dflt)
  | _ => none

/-- Model of `get_metadata_attrs` (image-layer-processor `entities.py`):
`event.get('data', {}).get('metadata', {}).get('properties', {})
.get('attrs', None)`, returning `{}` when the result is not a dict. -/
def get_metadata_attrs (event : JVal) : Option JVal := do
  let a ← pyGet event "data" (.obj [])
  let b ← pyGet a "metadata" (.obj [])
  let c ← pyGet b "properties" (.obj [])
  let attrs ← pyGet c "attrs" .null
  pure (if isObj attrs then attrs else .obj [])

/-- Result of `get_faces`/`get_objects`/`get_text_areas` up to the
storage access: either the early `return []` (no storage access at all),
or the URL that would be fetched from the object store. -/
inductive FetchOutcome where
  | emptyNoFetch : FetchOutcome
  | fetch : String → FetchOutcome

/-- Common body of `get_faces`, `get_objects` and `get_text_areas`:
`url = get_metadata_attrs(event).get(attr, None)`;
`if not url or not isinstance(url, str): return []`; otherwise fetch
`url` and parse it. -/
def get_attr_fetch (event : JVal) (attr : String) : Option FetchOutcome := do
  let attrs ← get_metadata_attrs event
  let u ← pyGet attrs attr .null
  pure (match u with
    | .str s => if s = "" then .emptyNoFetch else .fetch s
    | _ => .emptyNoFetch)

/-- Model of `get_faces(event)`. -/
def get_faces (event : JVal) : Option FetchOutcome := get_attr_fetch event "faces"

/-- Model of `get_objects(event)`. -/
def get_objects (event : JVal) : Option FetchOutcome := get_attr_fetch event "objects"

/-- Model of `get_text_areas(event)`. -/
def get_text_areas (event : JVal) : Option FetchOutcome := get_attr_fetch event "text"

/-- Whether a present attribute value is a string. -/
def isStrOpt : Option JVal → Bool
  | some (.str _) => true
  | _ => false

/-- The event dictionaries the `.get` chain of `get_metadata_attrs`
tolerates: the values at `data`, `data.metadata` and
`data.metadata.properties` are dictionaries whenever the key is present
(`attrs` may be missing or bound to anything). -/
def safeShape (event : JVal) : Bool :=
  match event with
  | .obj ekvs =>
    match lookupKey ekvs "data" with
    | none => true
    | some (.obj d) =>
      match lookupKey d "metadata" with
      | none => true
      | some (.obj m) =>
        match lookupKey m "properties" with
        | none => true
        | some (.obj _) => true
        | some _ => false
      | some _ => false
    | some _ => false
  | _ => false

/-! ### Association-list lemmas -/

theorem lookupKey_append_of_some {β : Type} {xs : List (String × β)} {k : String} {v : β}
    (ys : List (String × β)) (h : lookupKey xs k = some v) :
    lookupKey (xs ++ ys) k = some v := by
  induction xs with
  | nil => simp [lookupKey] at h
  | cons hd tl ih =>
    obtain ⟨k', w⟩ := hd
    simp only [lookupKey, List.cons_append] at h ⊢
    by_cases hk : k' = k
    · simpa [hk] using h
    · simp only [hk, if_false] at h ⊢
      exact ih h

theorem lookupKey_append_of_none {β : Type} {xs : List (String × β)} {k : String}
    (ys : List (String × β)) (h : lookupKey xs k = none) :
    lookupKey (xs ++ ys) k = lookupKey ys k := by
  induction xs with
  | nil => simp
  | cons hd tl ih =>
    obtain ⟨k', w⟩ := hd
    simp only [lookupKey, List.cons_append] at h ⊢
    by_cases hk : k' = k
    · simp [hk] at h
    · simp only [hk, if_false] at h ⊢
      exact ih h

theorem lookupKey_setKey_self {β : Type} {d : List (String × β)} {k : String} {w : β}
    (v : β) (h : lookupKey d k = some w) :
    lookupKey (setKey d k v) k = some v := by
  induction d with
  | nil => simp [lookupKey] at h
  | cons hd tl ih =>
    obtain ⟨k', w'⟩ := hd
    simp only [lookupKey, setKey] at h ⊢
    by_cases hk : k' = k
    · simp [hk, lookupKey]
    · simp only [hk, if_false, lookupKey] at h ⊢
      exact ih h

theorem lookupKey_setKey_other {β : Type} {k k' : String} (d : List (String × β)) (v : β)
    (hne : k' ≠ k) :
    lookupKey (setKey d k v) k' = lookupKey d k' := by
  induction d with
  | nil => simp [setKey]
  | cons hd tl ih =>
    obtain ⟨k'', w⟩ := hd
    simp only [setKey]
    by_cases hk : k'' = k
    · subst hk
      have hkk : ¬ k'' = k' := fun hh => hne hh.symm
      simp [lookupKey, hkk]
    · simp only [hk, if_false, lookupKey]
      by_cases hk' : k'' = k'
      · simp [hk']
      · simp [hk', ih]

theorem lookupKey_eq_none_of_not_mem {β : Type} {d : List (String × β)} {k : String}
    (h : k ∉ d.map Prod.fst) : lookupKey d k = none := by
  induction d with
  | nil => rfl
  | cons hd tl ih =>
    obtain ⟨k', w⟩ := hd
    simp only [List.map_cons, List.mem_cons] at h
    push_neg at h
    have hkk : ¬ k' = k := fun hh => h.1 hh.symm
    simp only [lookupKey, hkk, if_false]
    exact ih h.2

/-! ### Equations and lookup behaviour of the merge -/

theorem mergeObj_nil (d : List (String × JVal)) : mergeObj d [] = d := by
  simp [mergeObj]

theorem mergeObj_cons (d : List (String × JVal)) (k : String) (v : JVal)
    (rest : List (String × JVal)) :
    mergeObj d ((k, v) :: rest) = mergeObj (mergeEntry d k v) rest := by
  simp [mergeObj]

theorem mergeEntry_lookup_other {k k' : String} (d : List (String × JVal)) (v : JVal)
    (hne : k' ≠ k) :
    lookupKey (mergeEntry d k v) k' = lookupKey d k' := by
  unfold mergeEntry
  rcases h : lookupKey d k with _ | w
  · rcases h' : lookupKey d k' with _ | u
    · rw [lookupKey_append_of_none _ h', lookupKey]
      have hkk : ¬ k = k' := fun hh => hne hh.symm
      simp [hkk, lookupKey, h']
    · rw [lookupKey_append_of_some _ h']
  · rcases w with _ | _ | _ | _ | _ | dw <;> rcases v with _ | _ | _ | _ | _ | vw <;>
      first
        | rfl
        | exact lookupKey_setKey_other d _ hne

theorem mergeEntry_lookup_self_found {d : List (String × JVal)} {k : String} {w : JVal}
    (v : JVal) (h : lookupKey d k = some w) :
    lookupKey (mergeEntry d k v) k = some (mergedValue w (some v)) := by
  unfold mergeEntry
  rw [h]
  rcases w with _ | _ | _ | _ | _ | dw <;> rcases v with _ | _ | _ | _ | _ | vw <;>
    simp only [mergedValue] <;>
    first
      | exact lookupKey_setKey_self _ h
      | exact h

theorem mergeEntry_lookup_self_absent {d : List (String × JVal)} {k : String}
    (v : JVal) (h : lookupKey d k = none) :
    lookupKey (mergeEntry d k v) k = some v := by
  unfold mergeEntry
  rw [h]
  rcases v with _ | _ | _ | _ | _ | vw <;>
    (rw [lookupKey_append_of_none _ h]; simp [lookupKey])

theorem mergeObj_lookup_of_not_mem {m : List (String × JVal)} {k : String}
    (d : List (String × JVal)) (h : k ∉ m.map Prod.fst) :
    lookupKey (mergeObj d m) k = lookupKey d k := by
  induction m generalizing d with
  | nil => rw [mergeObj_nil]
  | cons hd tl ih =>
    obtain ⟨k', v⟩ := hd
    simp only [List.map_cons, List.mem_cons] at h
    push_neg at h
    rw [mergeObj_cons, ih _ h.2, mergeEntry_lookup_other _ _ (fun hh => h.1 hh)]

/-- Claim C2: For all dictionaries `dct` and `merge_dct`, after
`merge(dct, merge_dct)`: every key already present in `dct` keeps its
original value unless both the old and the new value are dictionaries, in
which case the merge recurses into them; keys of `merge_dct` absent from
`dct` are added with `merge_dct`'s value; hence no pre-existing
non-dictionary value of `dct` is ever overwritten. -/
theorem merge_preserves_and_adds (d m : List (String × JVal))
    (hm : (m.map Prod.fst).Nodup) (k : String) :
    (∀ v, lookupKey d k = some v →
      lookupKey (mergeObj d m) k = some (mergedValue v (lookupKey m k))) ∧
    (lookupKey d k = none →
      lookupKey (mergeObj d m) k = lookupKey m k) := by
  induction m generalizing d with
  | nil =>
    constructor
    · intro v hv; rw [mergeObj_nil, hv]; cases v <;> rfl
    · intro hv; rw [mergeObj_nil, hv]; rfl
  | cons hd rest ih =>
    obtain ⟨k1, v1⟩ := hd
    simp only [List.map_cons, List.nodup_cons] at hm
    obtain ⟨hk1, hrest⟩ := hm
    rw [mergeObj_cons]
    by_cases hk : k = k1
    · subst hk
      constructor
      · intro v hv
        rw [mergeObj_lookup_of_not_mem _ hk1, mergeEntry_lookup_self_found _ hv]
        simp [lookupKey]
      · intro hv
        rw [mergeObj_lookup_of_not_mem _ hk1, mergeEntry_lookup_self_absent _ hv]
        simp [lookupKey]
    · have hother := mergeEntry_lookup_other d v1 hk
      have ihr := ih (mergeEntry d k1 v1) hrest
      have hk1k : ¬ k1 = k := fun hh => hk hh.symm
      constructor
      · intro v hv
        rw [ihr.1 v (hother.trans hv)]
        simp [lookupKey, hk1k]
      · intro hv
        rw [ihr.2 (hother.trans hv)]
        simp [lookupKey, hk1k]

/-- Witness for C2: a concrete merge in which `a` keeps its old value,
`b` is added, and the dictionaries at `meta` are merged recursively. -/
theorem merge_preserves_and_adds_witness :
    lookupKey (mergeObj
      [("a", JVal.num 1), ("meta", JVal.obj [("x", JVal.num 1)])]
      [("a", JVal.num 2), ("b", JVal.num 3),
       ("meta", JVal.obj [("x", JVal.num 9), ("y", JVal.num 2)])]) "meta"
    = some (mergedValue (JVal.obj [("x", JVal.num 1)])
        (lookupKey [("a", JVal.num 2), ("b", JVal.num 3),
          ("meta", JVal.obj [("x", JVal.num 9), ("y", JVal.num 2)])] "meta")) :=
  (merge_preserves_and_adds _ _ (by decide) "meta").1 _ rfl

/-- Computation lemma for `publish_event` on an event whose `data` is a
dict holding a list-valued `callStack`. -/
theorem publish_event_eq (sn : String) (topic : Option String)
    (ekvs dkvs : List (String × JVal)) (cs : List JVal)
    (hd : lookupKey ekvs "data" = some (.obj dkvs))
    (hc : lookupKey dkvs "callStack" = some (.arr cs)) :
    publish_event sn topic (.obj ekvs) =
      some (JVal.obj (setKey ekvs "data"
          (.obj (setKey dkvs "callStack" (.arr (.str sn :: cs))))),
        if topicConfigured topic
        then [(topic.getD "",
          JVal.obj (setKey ekvs "data"
            (.obj (setKey dkvs "callStack" (.arr (.str sn :: cs))))))]
        else []) := by
  simp only [publish_event, hd, hc]

/-- Claim C3: For every event whose `data.callStack` is a list,
`publish_event` inserts the configured service name at index 0 of
`data.callStack` (the stack grows by exactly one element, with all
previous entries in order, shifted by one), publishes the event to the SNS
target topic only when a target topic is configured, and returns the
mutated event. -/
theorem publish_event_spec (sn : String) (topic : Option String)
    (ekvs dkvs : List (String × JVal)) (cs : List JVal)
    (hd : lookupKey ekvs "data" = some (.obj dkvs))
    (hc : lookupKey dkvs "callStack" = some (.arr cs)) :
    publish_event sn topic (.obj ekvs) =
      some (JVal.obj (setKey ekvs "data"
          (.obj (setKey dkvs "callStack" (.arr (.str sn :: cs))))),
        if topicConfigured topic
        then [(topic.getD "",
          JVal.obj (setKey ekvs "data"
            (.obj (setKey dkvs "callStack" (.arr (.str sn :: cs))))))]
        else []) :=
  publish_event_eq sn topic ekvs dkvs cs hd hc

/-- Witness for C3: a concrete event with a one-element call stack and a
configured topic. -/
theorem publish_event_spec_witness :
    publish_event "svc" (some "arn:topic")
      (.obj [("data", .obj [("callStack", .arr [JVal.str "prev"]),
                            ("chainId", .str "c1")])]) =
      some (JVal.obj [("data", JVal.obj
              [("callStack", JVal.arr [JVal.str "svc", JVal.str "prev"]),
               ("chainId", JVal.str "c1")])],
        [("arn:topic", JVal.obj [("data", JVal.obj
              [("callStack", JVal.arr [JVal.str "svc", JVal.str "prev"]),
               ("chainId", JVal.str "c1")])])]) := by
  have h := publish_event_spec "svc" (some "arn:topic")
    [("data", JVal.obj [("callStack", JVal.arr [JVal.str "prev"]),
       ("chainId", JVal.str "c1")])]
    [("callStack", JVal.arr [JVal.str "prev"]), ("chainId", JVal.str "c1")]
    [JVal.str "prev"] rfl rfl
  simpa [setKey, topicConfigured] using h

/-- Claim C1: For every SQS message received by the whisper-transcriber
`on_message`, the message is deleted from the input queue if and only if
parsing (including the document-URL read), processing, and publishing all
complete without raising; when any step raises, the exception is caught
(`on_message` is total) and the message is not deleted. -/
theorem on_message_delete_iff (parsed : Option JVal)
    (process publish : JVal → Option JVal) :
    on_message parsed process publish = true ↔
      ∃ ev, parsed = some ev ∧ (documentUrl ev).isSome ∧
        ∃ ev2, process ev = some ev2 ∧ (publish ev2).isSome := by
  rcases parsed with _ | ev
  · simp [on_message, on_message_try]
  · rcases hu : documentUrl ev with _ | u
    · simp [on_message, on_message_try, hu]
    · rcases hp : process ev with _ | ev2
      · simp [on_message, on_message_try, hu, hp]
      · rcases hq : publish ev2 with _ | r
        · simp [on_message, on_message_try, hu, hp, hq]
        · simp [on_message, on_message_try, hu, hp, hq]

/-- Claim C6: In `sqs_consume_queue`, exceptions from `message_processor`
are caught and the loop continues with the remaining messages of the
batch and with subsequent polls: the sequence of messages handed to the
processor is exactly the concatenation of the polled batches up to the
first empty poll, independent of which calls fail (no retry or backoff);
and the loop returns exactly when a poll yields an empty list. -/
theorem sqs_consume_queue_spec {α : Type} (proc : α → Option Unit)
    (polls : List (List α)) :
    ((sqs_consume_queue proc polls).1.map Prod.fst
        = (polls.takeWhile (fun b => !b.isEmpty)).flatten) ∧
    ((sqs_consume_queue proc polls).2 = polls.any List.isEmpty) := by
  induction polls with
  | nil => simp [sqs_consume_queue]
  | cons batch rest ih =>
    rcases batch with _ | ⟨m, ms⟩
    · simp [sqs_consume_queue]
    · have hb : (m :: ms).length > 0 := by simp
      simp only [sqs_consume_queue, hb, if_true, List.map_append, List.map_map]
      constructor
      · simp [List.takeWhile_cons, ih.1, Function.comp_def]
      · simp [ih.2]

/-- Claim C4: For every well-formed input event, `process_document` (both the
canny-edge-detector's and the image-layer-processor's) returns an event
whose `data.document` is a descriptor containing exactly the four fields
`url`, `type`, `size` and `etag` (in that insertion order), and whose
`data.chainId` is unchanged from the input event. -/
theorem process_document_envelope
    (cenv : CannyEnv) (lenv : LayerEnv)
    (ekvs dkvs dockvs : List (String × JVal))
    (chainId etag url ty : String)
    (hd : lookupKey ekvs "data" = some (.obj dkvs))
    (hdoc : lookupKey dkvs "document" = some (.obj dockvs))
    (hcid : lookupKey dkvs "chainId" = some (.str chainId))
    (hetag : lookupKey dockvs "etag" = some (.str etag))
    (hurl : lookupKey dockvs "url" = some (.str url))
    (hty : lookupKey dockvs "type" = some (.str ty)) :
    ((canny_process_document cenv (.obj ekvs)).isSome ∧
      ∀ out, canny_process_document cenv (.obj ekvs) = some out →
        docKeys out.1 = some ["url", "type", "size", "etag"] ∧
        chainIdOf out.1 = chainIdOf (.obj ekvs)) ∧
    ((layer_process_document lenv (.obj ekvs)).isSome ∧
      ∀ ev'', layer_process_document lenv (.obj ekvs) = some ev'' →
        docKeys ev'' = some ["url", "type", "size", "etag"] ∧
        chainIdOf ev'' = chainIdOf (.obj ekvs)) := by
  have hne : ("chainId" : String) ≠ "document" := by decide
  refine ⟨⟨?_, ?_⟩, ?_, ?_⟩
  · simp only [canny_process_document, hd, hdoc, hcid, hetag, hurl]
    rfl
  · intro out hout
    simp only [canny_process_document, hd, hdoc, hcid, hetag, hurl,
      Option.some.injEq] at hout
    subst hout
    constructor
    · simp [docKeys, documentOf, jGet, lookupKey_setKey_self _ hd,
        lookupKey_setKey_self _ hdoc]
    · simp [chainIdOf, jGet, hd, lookupKey_setKey_self _ hd,
        lookupKey_setKey_other _ _ hne]
  · simp only [layer_process_document, hd, hdoc, hetag, hurl, hty]
    rfl
  · intro ev'' hout
    simp only [layer_process_document, hd, hdoc, hetag, hurl, hty,
      Option.some.injEq] at hout
    subst hout
    constructor
    · simp [docKeys, documentOf, jGet, lookupKey_setKey_self _ hd,
        lookupKey_setKey_self _ hdoc]
    · simp [chainIdOf, jGet, hd, lookupKey_setKey_self _ hd,
        lookupKey_setKey_other _ _ hne]

/-- Witness for C4: both processors on a concrete event, with the
concrete output events. -/
theorem process_document_envelope_witness :
    (docKeys (JVal.obj [("data", JVal.obj [("document", JVal.obj
        [("url", JVal.str ("s3://bkt/" ++ ("c" ++ "/" ++ "tag0"))),
         ("type", JVal.str "image/png"), ("size", JVal.num 7),
         ("etag", JVal.str "E")]),
        ("chainId", JVal.str "c")])]) = some ["url", "type", "size", "etag"] ∧
      chainIdOf (JVal.obj [("data", JVal.obj [("document", JVal.obj
        [("url", JVal.str ("s3://bkt/" ++ ("c" ++ "/" ++ "tag0"))),
         ("type", JVal.str "image/png"), ("size", JVal.num 7),
         ("etag", JVal.str "E")]),
        ("chainId", JVal.str "c")])]) =
      chainIdOf (.obj [("data", JVal.obj [("document", JVal.obj
        [("url", JVal.str "s3://in/img.png"), ("etag", JVal.str "tag0"),
         ("type", JVal.str "image/png")]),
        ("chainId", JVal.str "c")])])) :=
  ((process_document_envelope ⟨"bkt", "svc", some "t", fun _ => "E", 7⟩
      ⟨"pb", fun _ => "p", 9, fun _ => "m", fun _ => "E2"⟩
      [("data", JVal.obj [("document", JVal.obj
        [("url", JVal.str "s3://in/img.png"), ("etag", JVal.str "tag0"),
         ("type", JVal.str "image/png")]),
        ("chainId", JVal.str "c")])]
      [("document", JVal.obj
        [("url", JVal.str "s3://in/img.png"), ("etag", JVal.str "tag0"),
         ("type", JVal.str "image/png")]),
       ("chainId", JVal.str "c")]
      [("url", JVal.str "s3://in/img.png"), ("etag", JVal.str "tag0"),
       ("type", JVal.str "image/png")]
      "c" "tag0" "s3://in/img.png" "image/png"
      rfl rfl rfl rfl rfl rfl).1).2 _ rfl

/-- Claim C7: For every well-formed SQS record, the canny-edge-detector
record handler performs, in this order: parse the record body as JSON;
fetch the document bytes from the URL in `data.document.url`; apply the
library edge-detection call; upload the resulting PNG to the
processed-files bucket under the key `chainId/etag`; replace
`data.document` with the descriptor of the uploaded object; then publish
the event downstream. -/
theorem canny_record_handler_trace (env : CannyEnv) (t : String)
    (ekvs dkvs dockvs : List (String × JVal)) (cs : List JVal)
    (chainId etag url : String)
    (hd : lookupKey ekvs "data" = some (.obj dkvs))
    (hdoc : lookupKey dkvs "document" = some (.obj dockvs))
    (hcid : lookupKey dkvs "chainId" = some (.str chainId))
    (hetag : lookupKey dockvs "etag" = some (.str etag))
    (hurl : lookupKey dockvs "url" = some (.str url))
    (hstack : lookupKey dkvs "callStack" = some (.arr cs))
    (htop : env.topic = some t) (htne : t ≠ "") :
    (canny_record_handler env (.obj ekvs)).isSome ∧
    ∀ out, canny_record_handler env (.obj ekvs) = some out →
      out.2 = [Step.parseBody, Step.s3Fetch url, Step.edgeDetect,
        Step.s3Upload env.targetBucket (chainId ++ "/" ++ etag),
        Step.setDocument, Step.snsPublish t] ∧
      documentOf out.1 = some (.obj [
        ("url", .str ("s3://" ++ env.targetBucket ++ "/" ++ (chainId ++ "/" ++ etag))),
        ("type", .str "image/png"),
        ("size", .num env.pngSize),
        ("etag", .str (env.etagOf (chainId ++ "/" ++ etag)))]) := by
  have hne1 : ("callStack" : String) ≠ "document" := by decide
  have hne2 : ("document" : String) ≠ "callStack" := by decide
  have hp : canny_process_document env (.obj ekvs) =
      some (.obj (setKey ekvs "data" (.obj (setKey dkvs "document"
        (.obj [("url", .str ("s3://" ++ env.targetBucket ++ "/" ++ (chainId ++ "/" ++ etag))),
               ("type", .str "image/png"),
               ("size", .num env.pngSize),
               ("etag", .str (env.etagOf (chainId ++ "/" ++ etag)))])))),
        [.s3Fetch url, .edgeDetect, .s3Upload env.targetBucket (chainId ++ "/" ++ etag),
         .setDocument]) := by
    simp only [canny_process_document, hd, hdoc, hcid, hetag, hurl]
  have hq := publish_event_eq env.serviceName env.topic
    (setKey ekvs "data" (.obj (setKey dkvs "document"
        (.obj [("url", .str ("s3://" ++ env.targetBucket ++ "/" ++ (chainId ++ "/" ++ etag))),
               ("type", .str "image/png"),
               ("size", .num env.pngSize),
               ("etag", .str (env.etagOf (chainId ++ "/" ++ etag)))]))))
    (setKey dkvs "document"
        (.obj [("url", .str ("s3://" ++ env.targetBucket ++ "/" ++ (chainId ++ "/" ++ etag))),
               ("type", .str "image/png"),
               ("size", .num env.pngSize),
               ("etag", .str (env.etagOf (chainId ++ "/" ++ etag)))]))
    cs (lookupKey_setKey_self _ hd)
    ((lookupKey_setKey_other _ _ hne1).trans hstack)
  rw [htop] at hq
  have htc : topicConfigured (some t) = true := by
    simp [topicConfigured, htne]
  rw [htc, if_pos rfl] at hq
  constructor
  · simp only [canny_record_handler, hp, htop, hq, Option.bind_eq_bind,
      Option.some_bind, Option.pure_def, Option.isSome_some]
  · intro out hout
    simp only [canny_record_handler, hp, htop, hq, Option.bind_eq_bind,
      Option.some_bind, Option.pure_def, Option.some.injEq] at hout
    subst hout
    constructor
    · rfl
    · simp only [documentOf, jGet]
      rw [lookupKey_setKey_self _ (lookupKey_setKey_self _ hd)]
      simp only [Option.bind_eq_bind, Option.some_bind]
      rw [lookupKey_setKey_other _ _ hne2, lookupKey_setKey_self _ hdoc]

/-- Witness for C7: the full ordered trace on a concrete record. -/
theorem canny_record_handler_trace_witness :
    ((JVal.obj [("data", JVal.obj
        [("document", JVal.obj
           [("url", JVal.str ("s3://" ++ "bkt" ++ "/" ++ ("c" ++ "/" ++ "tag0"))),
            ("type", JVal.str "image/png"), ("size", JVal.num 7),
            ("etag", JVal.str "E")]),
         ("chainId", JVal.str "c"),
         ("callStack", JVal.arr [JVal.str "svc"])])],
      [Step.parseBody, Step.s3Fetch "s3://in/img.png", Step.edgeDetect,
       Step.s3Upload "bkt" ("c" ++ "/" ++ "tag0"), Step.setDocument,
       Step.snsPublish "t"]) : JVal × List Step).2 =
      [Step.parseBody, Step.s3Fetch "s3://in/img.png", Step.edgeDetect,
       Step.s3Upload "bkt" ("c" ++ "/" ++ "tag0"), Step.setDocument,
       Step.snsPublish "t"] ∧
    documentOf ((JVal.obj [("data", JVal.obj
        [("document", JVal.obj
           [("url", JVal.str ("s3://" ++ "bkt" ++ "/" ++ ("c" ++ "/" ++ "tag0"))),
            ("type", JVal.str "image/png"), ("size", JVal.num 7),
            ("etag", JVal.str "E")]),
         ("chainId", JVal.str "c"),
         ("callStack", JVal.arr [JVal.str "svc"])])],
      [Step.parseBody, Step.s3Fetch "s3://in/img.png", Step.edgeDetect,
       Step.s3Upload "bkt" ("c" ++ "/" ++ "tag0"), Step.setDocument,
       Step.snsPublish "t"]) : JVal × List Step).1 =
      some (.obj
        [("url", JVal.str ("s3://" ++ "bkt" ++ "/" ++ ("c" ++ "/" ++ "tag0"))),
         ("type", JVal.str "image/png"), ("size", JVal.num 7),
         ("etag", JVal.str "E")]) :=
  (canny_record_handler_trace ⟨"bkt", "svc", some "t", fun _ => "E", 7⟩ "t"
    [("data", JVal.obj
        [("document", JVal.obj
           [("url", JVal.str "s3://in/img.png"), ("etag", JVal.str "tag0")]),
         ("chainId", JVal.str "c"), ("callStack", JVal.arr [])])]
    [("document", JVal.obj
        [("url", JVal.str "s3://in/img.png"), ("etag", JVal.str "tag0")]),
     ("chainId", JVal.str "c"), ("callStack", JVal.arr [])]
    [("url", JVal.str "s3://in/img.png"), ("etag", JVal.str "tag0")]
    [] "c" "tag0" "s3://in/img.png"
    rfl rfl rfl rfl rfl rfl rfl (by decide)).2 _ rfl

/-- One `on_chunk` call on a well-shaped event with a configured topic
publishes exactly one message and preserves the shape. -/
theorem on_chunk_step (env : SplitterEnv) (chunk : String) (idx : Nat) (ev : JVal)
    (htc : topicConfigured env.topic = true) (h : SplitterShape ev) :
    ∃ ev1 pub, on_chunk env chunk idx ev = some (ev1, [pub]) ∧
      SplitterShape ev1 := by
  obtain ⟨ekvs, dkvs, dockvs, mkvs, cs, urlS, etagS, chainIdS,
    rfl, hd, hdoc, hurl, hetag, hcid, hmeta, hcs⟩ := h
  have hmeta1 : ∀ v, lookupKey (setKey dkvs "document" v) "metadata"
      = some (.obj mkvs) :=
    fun v => (lookupKey_setKey_other dkvs v (by decide)).trans hmeta
  have hcs2 : ∀ v w, lookupKey (setKey (setKey dkvs "document" v) "metadata" w)
      "callStack" = some (.arr cs) :=
    fun v w => (lookupKey_setKey_other _ w (by decide)).trans
      ((lookupKey_setKey_other _ v (by decide)).trans hcs)
  have hpub : ∀ v w, publish_event env.serviceName env.topic
      (.obj (setKey ekvs "data" (.obj (setKey (setKey dkvs "document" v) "metadata" w)))) =
      some (JVal.obj (setKey (setKey ekvs "data"
          (.obj (setKey (setKey dkvs "document" v) "metadata" w))) "data"
          (.obj (setKey (setKey (setKey dkvs "document" v) "metadata" w) "callStack"
            (.arr (.str env.serviceName :: cs))))),
        if topicConfigured env.topic
        then [(env.topic.getD "",
          JVal.obj (setKey (setKey ekvs "data"
            (.obj (setKey (setKey dkvs "document" v) "metadata" w))) "data"
            (.obj (setKey (setKey (setKey dkvs "document" v) "metadata" w) "callStack"
              (.arr (.str env.serviceName :: cs))))))]
        else []) :=
    fun v w => publish_event_eq env.serviceName env.topic _ _ cs
      (lookupKey_setKey_self _ hd) (hcs2 v w)
  have nDocCS : ("document" : String) ≠ "callStack" := by decide
  have nDocMeta : ("document" : String) ≠ "metadata" := by decide
  have nMetaCS : ("metadata" : String) ≠ "callStack" := by decide
  have nCidCS : ("chainId" : String) ≠ "callStack" := by decide
  have nCidMeta : ("chainId" : String) ≠ "metadata" := by decide
  have nCidDoc : ("chainId" : String) ≠ "document" := by decide
  simp only [on_chunk, hd, hdoc, hcid, hetag, hmeta1, hpub, htc, if_true]
  refine ⟨_, _, rfl, ?_⟩
  exact ⟨_, _, _, _, _, _, _, _, rfl,
    lookupKey_setKey_self _ (lookupKey_setKey_self _ hd),
    (lookupKey_setKey_other _ _ nDocCS).trans
      ((lookupKey_setKey_other _ _ nDocMeta).trans (lookupKey_setKey_self _ hdoc)),
    rfl, rfl,
    (lookupKey_setKey_other _ _ nCidCS).trans
      ((lookupKey_setKey_other _ _ nCidMeta).trans
        ((lookupKey_setKey_other _ _ nCidDoc).trans hcid)),
    (lookupKey_setKey_other _ _ nMetaCS).trans
      (lookupKey_setKey_self _ (hmeta1 _)),
    lookupKey_setKey_self _ (hcs2 _ _)⟩

/-- The chunk loop publishes one message per chunk and preserves the
event shape. -/
theorem splitter_loop_length (env : SplitterEnv)
    (htc : topicConfigured env.topic = true) :
    ∀ (l : List (String × Nat)) (ev : JVal), SplitterShape ev →
      ∃ out, splitter_loop env ev l = some out ∧ out.2.length = l.length ∧
        SplitterShape out.1 := by
  intro l
  induction l with
  | nil => exact fun ev h => ⟨(ev, []), rfl, rfl, h⟩
  | cons p rest ih =>
    intro ev h
    obtain ⟨chunk, idx⟩ := p
    obtain ⟨ev1, pub, heq, h1⟩ := on_chunk_step env chunk idx ev htc h
    obtain ⟨out, hout, hlen, hsh⟩ := ih ev1 h1
    refine ⟨(out.1, [pub] ++ out.2), ?_, ?_, hsh⟩
    · simp [splitter_loop, heq, hout]
    · simp [hlen]

/-- Claim C5 (counterexample): The claim "exactly one enriched event is
republished per consumed event, including for the tiling-text-splitter"
fails: on a concrete well-formed event whose text tokenizes into the two
chunks `"a"` and `"b"`, `document_handler` publishes two events, not
one. -/
theorem document_handler_two_publishes :
    (document_handler ⟨"b", "s", some "t", fun _ => "E", fun _ => 1, fun _ => "H"⟩
      ["a", "b"]
      (.obj [("data", JVal.obj [
        ("document", JVal.obj [("url", JVal.str "u"), ("etag", JVal.str "g")]),
        ("chainId", JVal.str "c"),
        ("metadata", JVal.obj []),
        ("callStack", JVal.arr [])])])).map (fun r => r.2.length) = some 2
    ∧ (2 : Nat) ≠ 1 :=
  ⟨rfl, by decide⟩

/-- Claim C5 (amended): For every queued event consumed by the
tiling-text-splitter with a configured downstream topic, exactly one
enriched event is republished *per chunk* produced by the text-tiling
tokenizer on the document's text (single-output processors such as the
image processors correspond to the single-chunk case); an input event
yields `chunks.length` published events, not always one. -/
theorem document_handler_publishes_per_chunk (env : SplitterEnv)
    (chunks : List String)
    (ekvs dkvs dockvs mkvs : List (String × JVal)) (cs : List JVal)
    (urlS etagS chainIdS : String)
    (hd : lookupKey ekvs "data" = some (.obj dkvs))
    (hdoc : lookupKey dkvs "document" = some (.obj dockvs))
    (hurl : lookupKey dockvs "url" = some (.str urlS))
    (hetag : lookupKey dockvs "etag" = some (.str etagS))
    (hcid : lookupKey dkvs "chainId" = some (.str chainIdS))
    (hmeta : lookupKey dkvs "metadata" = some (.obj mkvs))
    (hcs : lookupKey dkvs "callStack" = some (.arr cs))
    (htc : topicConfigured env.topic = true) :
    (document_handler env chunks (.obj ekvs)).isSome ∧
    ∀ out, document_handler env chunks (.obj ekvs) = some out →
      out.2.length = chunks.length := by
  have hshape : SplitterShape (.obj ekvs) :=
    ⟨ekvs, dkvs, dockvs, mkvs, cs, urlS, etagS, chainIdS,
      rfl, hd, hdoc, hurl, hetag, hcid, hmeta, hcs⟩
  obtain ⟨out, hout, hlen, _⟩ := splitter_loop_length env htc
    (chunks.enum.map (fun p => (p.2, p.1))) _ hshape
  have hdh : document_handler env chunks (.obj ekvs) = some out := by
    simp only [document_handler, hd, hdoc, hurl, hout]
  constructor
  · rw [hdh]; rfl
  · intro o ho
    rw [hdh] at ho
    injection ho with ho
    subst ho
    rw [hlen]
    simp

/-- Witness for the amended C5: three chunks yield three published
events. -/
theorem document_handler_publishes_per_chunk_witness :
    (document_handler ⟨"b", "s", some "t", fun _ => "E", fun _ => 1, fun _ => "H"⟩
      ["x", "y", "z"]
      (.obj [("data", JVal.obj [
        ("document", JVal.obj [("url", JVal.str "u"), ("etag", JVal.str "g")]),
        ("chainId", JVal.str "c"),
        ("metadata", JVal.obj []),
        ("callStack", JVal.arr [])])])).map (fun r => r.2.length) = some 3 := by
  have h := document_handler_publishes_per_chunk
    ⟨"b", "s", some "t", fun _ => "E", fun _ => 1, fun _ => "H"⟩
    ["x", "y", "z"]
    [("data", JVal.obj [
        ("document", JVal.obj [("url", JVal.str "u"), ("etag", JVal.str "g")]),
        ("chainId", JVal.str "c"),
        ("metadata", JVal.obj []),
        ("callStack", JVal.arr [])])]
    [("document", JVal.obj [("url", JVal.str "u"), ("etag", JVal.str "g")]),
     ("chainId", JVal.str "c"), ("metadata", JVal.obj []), ("callStack", JVal.arr [])]
    [("url", JVal.str "u"), ("etag", JVal.str "g")]
    [] [] "u" "g" "c" rfl rfl rfl rfl rfl rfl rfl rfl
  rcases hh : document_handler
      ⟨"b", "s", some "t", fun _ => "E", fun _ => 1, fun _ => "H"⟩
      ["x", "y", "z"]
      (.obj [("data", JVal.obj [
        ("document", JVal.obj [("url", JVal.str "u"), ("etag", JVal.str "g")]),
        ("chainId", JVal.str "c"),
        ("metadata", JVal.obj []),
        ("callStack", JVal.arr [])])]) with _ | out
  · rw [hh] at h
    simp at h
  · simpa using h.2 out hh

/-- Invariant of the chunking loop: starting from a pending chunk within
bounds, over sentences each within bounds, the loop emits a non-empty
chunk list, every chunk within bounds, whose concatenation is the pending
chunk followed by all sentences. -/
theorem chunkLoop_spec (maxB : Nat) :
    ∀ (ss : List Utf8) (cur : Utf8), ss ≠ [] → cur.length ≤ maxB →
      (∀ s ∈ ss, s.length ≤ maxB) →
      chunkLoop maxB ss cur ≠ [] ∧
      (∀ c ∈ chunkLoop maxB ss cur, c.length ≤ maxB) ∧
      (chunkLoop maxB ss cur).flatten = cur ++ ss.flatten := by
  intro ss
  induction ss with
  | nil => intro cur h; exact absurd rfl h
  | cons s rest ih =>
    intro cur _ hcur hs
    have hsb : s.length ≤ maxB := hs s (by simp)
    rcases rest with _ | ⟨s', rest'⟩
    · by_cases hov : s.length + cur.length > maxB
      · refine ⟨by simp [chunkLoop, hov], ?_, by simp [chunkLoop, hov]⟩
        intro c hc
        simp only [chunkLoop, hov, if_true, List.mem_cons,
          List.mem_singleton] at hc
        rcases hc with rfl | rfl | hc
        · exact hcur
        · exact hsb
        · simp at hc
      · refine ⟨by simp [chunkLoop, hov], ?_, by simp [chunkLoop, hov]⟩
        intro c hc
        simp only [chunkLoop, hov, if_false, List.mem_singleton] at hc
        subst hc
        simp only [List.length_append]
        omega
    · have hrest : ∀ t ∈ s' :: rest', t.length ≤ maxB :=
        fun t ht => hs t (by simp [ht])
      by_cases hov : s.length + cur.length > maxB
      · obtain ⟨h1, h2, h3⟩ := ih s (by simp) hsb hrest
        refine ⟨by simp [chunkLoop, hov], ?_, ?_⟩
        · intro c hc
          simp only [chunkLoop, hov, if_true, List.mem_cons] at hc
          rcases hc with rfl | hc
          · exact hcur
          · exact h2 c hc
        · simp [chunkLoop, hov, h3]
      · have hlen : (cur ++ s).length ≤ maxB := by
          simp only [List.length_append]
          omega
        obtain ⟨h1, h2, h3⟩ := ih (cur ++ s) (by simp) hlen hrest
        refine ⟨by simp [chunkLoop, hov, h1], ?_, ?_⟩
        · intro c hc
          simp only [chunkLoop, hov, if_false] at hc
          exact h2 c hc
        · simp [chunkLoop, hov, h3]

/-- Claim C8: For every non-empty tokenized sentence list in which every
sentence encodes to at most `max_byte_length` UTF-8 bytes, `chunk_text`
returns a non-empty list of chunks, every chunk of UTF-8 byte length at
most `max_byte_length`, and the concatenation of the chunks equals the
concatenation of the tokenized sentences (each sentence lands in exactly
one chunk, in order; the inter-sentence text dropped by the tokenizer
never reappears). -/
theorem chunk_text_spec (sentences : List Utf8) (maxB : Nat)
    (hne : sentences ≠ [])
    (hs : ∀ s ∈ sentences, s.length ≤ maxB) :
    chunk_text sentences maxB ≠ [] ∧
    (∀ c ∈ chunk_text sentences maxB, c.length ≤ maxB) ∧
    (chunk_text sentences maxB).flatten = sentences.flatten := by
  have h := chunkLoop_spec maxB sentences [] hne (by simp) hs
  simpa [chunk_text] using h

/-- Witness for C8: three short sentences with a byte budget of 3 split
into two maximal chunks. -/
theorem chunk_text_spec_witness :
    chunk_text [[1, 2], [3], [4, 5, 6]] 3 ≠ [] ∧
    (chunk_text [[1, 2], [3], [4, 5, 6]] 3).flatten
      = ([[1, 2], [3], [4, 5, 6]] : List Utf8).flatten :=
  ⟨(chunk_text_spec [[1, 2], [3], [4, 5, 6]] 3 (by decide) (by decide)).1,
   (chunk_text_spec [[1, 2], [3], [4, 5, 6]] 3 (by decide) (by decide)).2.2⟩

/-! ### Keyword post-processing lemmas -/

theorem mergeMax_assoc (a b c : Option Int) :
    mergeMax (mergeMax a b) c = mergeMax a (mergeMax b c) := by
  rcases a with _ | x <;> rcases b with _ | y <;> rcases c with _ | z <;>
    simp [mergeMax, max_assoc]

theorem keys_setKey {β : Type} (d : List (String × β)) (k : String) (v : β) :
    (setKey d k v).map Prod.fst = d.map Prod.fst := by
  induction d with
  | nil => rfl
  | cons hd tl ih =>
    obtain ⟨k', w⟩ := hd
    simp only [setKey]
    by_cases hk : k' = k <;> simp [hk, ih]

theorem lookupKey_none_not_mem {β : Type} {d : List (String × β)} {k : String}
    (h : lookupKey d k = none) : k ∉ d.map Prod.fst := by
  induction d with
  | nil => simp
  | cons hd tl ih =>
    obtain ⟨k', w⟩ := hd
    simp only [lookupKey] at h
    by_cases hk : k' = k
    · simp [hk] at h
    · simp only [hk, if_false] at h
      simp only [List.map_cons, List.mem_cons]
      push_neg
      exact ⟨fun hh => hk hh.symm, ih h⟩

theorem dedupeStep_lookup_other (acc : List (String × Int)) (kv : String × Int)
    (k : String) (hne : k ≠ kv.1) :
    lookupKey (dedupeStep acc kv) k = lookupKey acc k := by
  unfold dedupeStep
  rcases h : lookupKey acc kv.1 with _ | v0
  · rcases h' : lookupKey acc k with _ | u
    · rw [lookupKey_append_of_none _ h', lookupKey]
      have : ¬ kv.1 = k := fun hh => hne hh.symm
      simp [this, lookupKey]
    · rw [lookupKey_append_of_some _ h']
  · by_cases hgt : kv.2 > v0
    · simp only [hgt, if_true]
      exact lookupKey_setKey_other acc kv.2 hne
    · simp [hgt]

theorem dedupeStep_lookup_self (acc : List (String × Int)) (kv : String × Int) :
    lookupKey (dedupeStep acc kv) kv.1
      = mergeMax (lookupKey acc kv.1) (some kv.2) := by
  unfold dedupeStep
  rcases h : lookupKey acc kv.1 with _ | v0
  · rw [lookupKey_append_of_none _ h]
    simp [lookupKey, mergeMax]
  · by_cases hgt : kv.2 > v0
    · simp only [hgt, if_true, mergeMax]
      rw [lookupKey_setKey_self _ h]
      rw [max_eq_right (le_of_lt hgt)]
    · simp only [hgt, if_false, mergeMax, h]
      rw [max_eq_left (not_lt.mp hgt)]

theorem dedupe_foldl_lookup :
    ∀ (pairs : List (String × Int)) (acc : List (String × Int)) (k : String),
      lookupKey (pairs.foldl dedupeStep acc) k
        = mergeMax (lookupKey acc k) (maxScore pairs k) := by
  intro pairs
  induction pairs with
  | nil =>
    intro acc k
    rcases h : lookupKey acc k with _ | v <;> simp [maxScore, mergeMax, h]
  | cons kv rest ih =>
    intro acc k
    obtain ⟨k1, v1⟩ := kv
    rw [List.foldl_cons, ih]
    by_cases hk : k = k1
    · subst hk
      rw [dedupeStep_lookup_self]
      have hms : maxScore ((k, v1) :: rest) k
          = mergeMax (some v1) (maxScore rest k) := by
        simp only [maxScore, if_pos rfl]
        rcases maxScore rest k with _ | m <;> simp [mergeMax]
      rw [hms, ← mergeMax_assoc]
    · have hk1 : ¬ k1 = k := fun hh => hk hh.symm
      rw [dedupeStep_lookup_other _ _ _ hk]
      simp only [maxScore, hk1, if_false]

theorem dedupe_max_lookup (pairs : List (String × Int)) (k : String) :
    lookupKey (dedupe_max pairs) k = maxScore pairs k := by
  rw [dedupe_max, dedupe_foldl_lookup]
  rcases maxScore pairs k with _ | m <;> simp [lookupKey, mergeMax]

theorem dedupe_foldl_keys_nodup :
    ∀ (pairs : List (String × Int)) (acc : List (String × Int)),
      (acc.map Prod.fst).Nodup → ((pairs.foldl dedupeStep acc).map Prod.fst).Nodup := by
  intro pairs
  induction pairs with
  | nil => exact fun acc h => h
  | cons kv rest ih =>
    intro acc hacc
    rw [List.foldl_cons]
    refine ih _ ?_
    unfold dedupeStep
    rcases h : lookupKey acc kv.1 with _ | v0
    · have hnm := lookupKey_none_not_mem h
      simp [List.nodup_append, hacc, hnm]
    · by_cases hgt : kv.2 > v0
      · simpa [hgt, keys_setKey] using hacc
      · simpa [hgt] using hacc

theorem lookupKey_of_mem_nodup {β : Type} {d : List (String × β)}
    (h : (d.map Prod.fst).Nodup) {kv : String × β} (hm : kv ∈ d) :
    lookupKey d kv.1 = some kv.2 := by
  induction d with
  | nil => simp at hm
  | cons hd tl ih =>
    obtain ⟨k', w⟩ := hd
    simp only [List.map_cons, List.nodup_cons] at h
    rcases List.mem_cons.mp hm with rfl | hmem
    · simp [lookupKey]
    · have hk : ¬ k' = kv.1 := by
        intro hh
        exact h.1 (hh ▸ (List.mem_map.mpr ⟨kv, hmem, rfl⟩))
      simp only [lookupKey, hk, if_false]
      exact ih h.2 hmem

theorem insertDesc_perm (x : String × Int) (l : List (String × Int)) :
    List.Perm (insertDesc x l) (x :: l) := by
  induction l with
  | nil => rfl
  | cons y ys ih =>
    simp only [insertDesc]
    by_cases hxy : x.2 > y.2
    · simp [hxy]
    · simp only [hxy, if_false]
      exact (ih.cons y).trans (List.Perm.swap x y ys)

theorem foldl_insertDesc_perm :
    ∀ (l acc : List (String × Int)),
      List.Perm (l.foldl (fun acc x => insertDesc x acc) acc) (acc ++ l) := by
  intro l
  induction l with
  | nil => intro acc; simp
  | cons x rest ih =>
    intro acc
    rw [List.foldl_cons]
    refine (ih (insertDesc x acc)).trans ?_
    refine (((insertDesc_perm x acc).append_right rest).trans ?_)
    exact List.perm_middle.symm

theorem sortDesc_perm (l : List (String × Int)) : List.Perm (sortDesc l) l := by
  simpa using foldl_insertDesc_perm l []

theorem insertDesc_sorted (x : String × Int) (l : List (String × Int))
    (h : l.Pairwise (fun a b => b.2 ≤ a.2)) :
    (insertDesc x l).Pairwise (fun a b => b.2 ≤ a.2) := by
  induction l with
  | nil => simp [insertDesc]
  | cons y ys ih =>
    rw [List.pairwise_cons] at h
    simp only [insertDesc]
    by_cases hxy : x.2 > y.2
    · simp only [hxy, if_true]
      refine List.Pairwise.cons ?_ (List.Pairwise.cons h.1 h.2)
      intro b hb
      rcases List.mem_cons.mp hb with rfl | hbys
      · exact le_of_lt hxy
      · exact le_trans (h.1 b hbys) (le_of_lt hxy)
    · simp only [hxy, if_false]
      refine List.Pairwise.cons ?_ (ih h.2)
      intro b hb
      have hb' : b ∈ x :: ys := (insertDesc_perm x ys).mem_iff.mp hb
      rcases List.mem_cons.mp hb' with rfl | hbys
      · exact not_lt.mp hxy
      · exact h.1 b hbys

theorem sortDesc_sorted (l : List (String × Int)) :
    (sortDesc l).Pairwise (fun a b => b.2 ≤ a.2) := by
  have aux : ∀ (m acc : List (String × Int)),
      acc.Pairwise (fun a b => b.2 ≤ a.2) →
      (m.foldl (fun acc x => insertDesc x acc) acc).Pairwise
        (fun a b => b.2 ≤ a.2) := by
    intro m
    induction m with
    | nil => exact fun acc h => h
    | cons x rest ih =>
      intro acc hacc
      rw [List.foldl_cons]
      exact ih _ (insertDesc_sorted x acc hacc)
  exact aux l [] (by simp)

/-- Claim C9: For every family of per-chunk keyword extractions and every
`top_n`, `get_keywords` returns at most `top_n` keywords with no
duplicates, and there is a scored list it projects from that is ordered
by non-increasing score in which each keyword carries the maximum score
it obtained over all chunks. -/
theorem get_keywords_spec (chunkKeywords : List (List (String × Int)))
    (top_n : Nat) :
    (get_keywords chunkKeywords top_n).length ≤ top_n ∧
    (get_keywords chunkKeywords top_n).Nodup ∧
    ∃ scored : List (String × Int),
      get_keywords chunkKeywords top_n = scored.map Prod.fst ∧
      scored.Pairwise (fun a b => b.2 ≤ a.2) ∧
      ∀ kv ∈ scored, some kv.2 = maxScore chunkKeywords.flatten kv.1 := by
  have hnd : ((dedupe_max chunkKeywords.flatten).map Prod.fst).Nodup :=
    dedupe_foldl_keys_nodup _ [] (by simp)
  have hperm := sortDesc_perm (dedupe_max chunkKeywords.flatten)
  have hndS : ((sortDesc (dedupe_max chunkKeywords.flatten)).map Prod.fst).Nodup :=
    ((hperm.map Prod.fst).nodup_iff).mpr hnd
  refine ⟨?_, ?_, (sortDesc (dedupe_max chunkKeywords.flatten)).take top_n,
    rfl, ?_, ?_⟩
  · simp [get_keywords]
  · have hsub : List.Sublist
        (((sortDesc (dedupe_max chunkKeywords.flatten)).take top_n).map Prod.fst)
        ((sortDesc (dedupe_max chunkKeywords.flatten)).map Prod.fst) :=
      (List.take_sublist _ _).map _
    exact hsub.nodup hndS
  · exact (sortDesc_sorted _).sublist (List.take_sublist _ _)
  · intro kv hkv
    have h1 : kv ∈ sortDesc (dedupe_max chunkKeywords.flatten) :=
      List.take_subset _ _ hkv
    have h2 : kv ∈ dedupe_max chunkKeywords.flatten := hperm.mem_iff.mp h1
    have h3 := lookupKey_of_mem_nodup hnd h2
    rw [dedupe_max_lookup] at h3
    exact h3.symm

/-! ### Entity-accessor lemmas -/

/-- With the attributes dict in hand, an absent or non-string attribute
short-circuits to the empty list without touching storage. -/
theorem get_attr_fetch_empty {event : JVal} {akvs : List (String × JVal)}
    (attr : String) (hga : get_metadata_attrs event = some (.obj akvs))
    (hstr : isStrOpt (lookupKey akvs attr) = false) :
    get_attr_fetch event attr = some .emptyNoFetch := by
  unfold get_attr_fetch
  rw [hga]
  rcases hu : lookupKey akvs attr with _ | u
  · simp [pyGet, hu]
  · rcases u with _ | b | n | s | a | kvs
    · simp [pyGet, hu]
    · simp [pyGet, hu]
    · simp [pyGet, hu]
    · rw [hu] at hstr
      simp [isStrOpt] at hstr
    · simp [pyGet, hu]
    · simp [pyGet, hu]

/-- Claim C10 (counterexample): The claim quantifies over *every* event
dictionary, but `get_metadata_attrs({'data': 5})` raises
`AttributeError` (`.get` on the int `5`) instead of returning a
dictionary. -/
theorem get_metadata_attrs_raises :
    get_metadata_attrs (.obj [("data", JVal.num 5)]) = none := rfl

/-- Claim C10 (amended): For every event dictionary whose values at `data`,
`data.metadata` and `data.metadata.properties` are dictionaries whenever
present — including events missing any of these keys, or with `attrs`
missing or bound to a non-dictionary value — `get_metadata_attrs`
returns a dictionary without raising; and `get_faces`, `get_objects` and
`get_text_areas` return the empty list without attempting any storage
fetch whenever the corresponding attribute is absent or not a string. -/
theorem entities_safe (event : JVal) (h : safeShape event = true) :
    (∃ akvs, get_metadata_attrs event = some (.obj akvs)) ∧
    ∀ akvs, get_metadata_attrs event = some (.obj akvs) →
      (isStrOpt (lookupKey akvs "faces") = false →
        get_faces event = some .emptyNoFetch) ∧
      (isStrOpt (lookupKey akvs "objects") = false →
        get_objects event = some .emptyNoFetch) ∧
      (isStrOpt (lookupKey akvs "text") = false →
        get_text_areas event = some .emptyNoFetch) := by
  constructor
  · rcases event with _ | b | n | s | a | ekvs
    · simp [safeShape] at h
    · simp [safeShape] at h
    · simp [safeShape] at h
    · simp [safeShape] at h
    · simp [safeShape] at h
    · rcases hdata : lookupKey ekvs "data" with _ | v
      · exact ⟨[], by simp [get_metadata_attrs, pyGet, hdata, lookupKey, isObj]⟩
      · rcases v with _ | b | n | s | a | dkvs
        · simp [safeShape, hdata] at h
        · simp [safeShape, hdata] at h
        · simp [safeShape, hdata] at h
        · simp [safeShape, hdata] at h
        · simp [safeShape, hdata] at h
        · rcases hmeta : lookupKey dkvs "metadata" with _ | w
          · exact ⟨[], by
              simp [get_metadata_attrs, pyGet, hdata, hmeta, lookupKey, isObj]⟩
          · rcases w with _ | b | n | s | a | mkvs
            · simp [safeShape, hdata, hmeta] at h
            · simp [safeShape, hdata, hmeta] at h
            · simp [safeShape, hdata, hmeta] at h
            · simp [safeShape, hdata, hmeta] at h
            · simp [safeShape, hdata, hmeta] at h
            · rcases hprop : lookupKey mkvs "properties" with _ | p
              · exact ⟨[], by
                  simp [get_metadata_attrs, pyGet, hdata, hmeta, hprop,
                    lookupKey, isObj]⟩
              · rcases p with _ | b | n | s | a | pkvs
                · simp [safeShape, hdata, hmeta, hprop] at h
                · simp [safeShape, hdata, hmeta, hprop] at h
                · simp [safeShape, hdata, hmeta, hprop] at h
                · simp [safeShape, hdata, hmeta, hprop] at h
                · simp [safeShape, hdata, hmeta, hprop] at h
                · rcases hattr : lookupKey pkvs "attrs" with _ | q
                  · exact ⟨[], by
                      simp [get_metadata_attrs, pyGet, hdata, hmeta, hprop,
                        hattr, isObj]⟩
                  · rcases q with _ | b | n | s | a | akvs
                    · exact ⟨[], by
                        simp [get_metadata_attrs, pyGet, hdata, hmeta, hprop,
                          hattr, isObj]⟩
                    · exact ⟨[], by
                        simp [get_metadata_attrs, pyGet, hdata, hmeta, hprop,
                          hattr, isObj]⟩
                    · exact ⟨[], by
                        simp [get_metadata_attrs, pyGet, hdata, hmeta, hprop,
                          hattr, isObj]⟩
                    · exact ⟨[], by
                        simp [get_metadata_attrs, pyGet, hdata, hmeta, hprop,
                          hattr, isObj]⟩
                    · exact ⟨[], by
                        simp [get_metadata_attrs, pyGet, hdata, hmeta, hprop,
                          hattr, isObj]⟩
                    · exact ⟨akvs, by
                        simp [get_metadata_attrs, pyGet, hdata, hmeta, hprop,
                          hattr, isObj]⟩
  · intro akvs hga
    exact ⟨fun hs => get_attr_fetch_empty "faces" hga hs,
      fun hs => get_attr_fetch_empty "objects" hga hs,
      fun hs => get_attr_fetch_empty "text" hga hs⟩

/-- Witness for the amended C10: an event carrying no attributes at all
yields the empty attribute dict and empty entity lists with no fetch. -/
theorem entities_safe_witness :
    get_faces (.obj [("data", JVal.obj [("metadata", JVal.obj [])])])
      = some .emptyNoFetch ∧
    get_objects (.obj [("data", JVal.obj [("metadata", JVal.obj [])])])
      = some .emptyNoFetch ∧
    get_text_areas (.obj [("data", JVal.obj [("metadata", JVal.obj [])])])
      = some .emptyNoFetch :=
  ⟨((entities_safe (.obj [("data", JVal.obj [("metadata", JVal.obj [])])])
      rfl).2 [] rfl).1 rfl,
   ((entities_safe (.obj [("data", JVal.obj [("metadata", JVal.obj [])])])
      rfl).2 [] rfl).2.1 rfl,
   ((entities_safe (.obj [("data", JVal.obj [("metadata", JVal.obj [])])])
      rfl).2 [] rfl).2.2 rfl⟩

end Lakechain
